import Mathlib

/-! Shallow embedding of `src/sgpt/handlers/handler.py` (shell_gpt): the
streaming completion engine `Handler.get_completion` together with
`Handler.handle_function_call`, plus a spec-modelled Fingerprinting Cache
(the cache module itself is not among the given sources; only the spec
describes it). External collaborators declared out of scope by the spec
(json parsing, the function registry, the configuration surface, the remote
service) are abstracted into an environment record. -/

namespace SGpt

/-- Message roles used by the handler: "system", "user", "assistant",
"function". -/
inductive Role where
  | system
  | user
  | assistant
  | function
  deriving DecidableEq

/-- The function_call payload recorded on an assistant message
(handler.py line 44: `{"name": name, "arguments": arguments}`). -/
structure FunctionCallPayload where
  name : String
  arguments : String
  deriving DecidableEq

/-- One conversation message (handler.py lines 40-46 and 58): a role, a
content string, an optional name (function-role messages) and an optional
function_call payload (assistant function-call records). -/
structure Message where
  role : Role
  content : String
  name : Option String
  function_call : Option FunctionCallPayload
  deriving DecidableEq

/-- Partial function-call data carried by one stream chunk
(`delta.function_call`, handler.py lines 85-89); `none` models a Python
`None`/missing field, and empty strings are falsy in the source's tests. -/
structure FunctionCallDelta where
  name : Option String
  arguments : Option String
  deriving DecidableEq

/-- The delta of one stream chunk (`chunk.choices[0].delta`). -/
structure Delta where
  content : Option String
  function_call : Option FunctionCallDelta
  deriving DecidableEq

/-- One incremental chunk of the streaming response, carrying a delta and an
optional finish reason (handler.py lines 84 and 90). -/
structure Chunk where
  delta : Delta
  finish_reason : Option String
  deriving DecidableEq

/-- A function schema as passed to the remote API (a `Dict[str, str]` in the
source signature). -/
abbrev FuncSchema := List (String × String)

/-- The payload of one `chat.completions.create` call
(handler.py lines 76-82): model, temperature, top_p, messages, functions and
the stream flag. -/
structure Request where
  model : String
  temperature : Rat
  top_p : Rat
  messages : List Message
  functions : Option (List FuncSchema)
  stream : Bool
  deriving DecidableEq

/-- External collaborators of the engine, all declared out of scope by the
spec: `service` is the remote streaming endpoint (the chunk sequence it
returns for a request), `parseArgs` is `json.loads` restricted to key-value
payloads (`none` models a raised exception), `getFunction` is the function
registry `get_function` (`none` models an unresolvable name), and
`showFunctionsOutput` is the `SHOW_FUNCTIONS_OUTPUT` configuration flag. -/
structure Env where
  service : Request → List Chunk
  parseArgs : String → Option (List (String × String))
  getFunction : String → Option (List (String × String) → String)
  showFunctionsOutput : Bool

/-- Modelled from the spec: the distinguished role name
`DefaultRoles.SHELL.value` of the role module, which is not among the given
sources; the spec only says the shell variant forbids tool use, so the
concrete text is arbitrary but fixed. -/
def shellRoleName : String := "shell"

/-- Modelled from the spec: the distinguished role name
`DefaultRoles.CODE.value` (role module not among the given sources). -/
def codeRoleName : String := "code"

/-- Modelled from the spec: the distinguished role name
`DefaultRoles.DESCRIBE_SHELL.value` (role module not among the given
sources). -/
def describeShellRoleName : String := "describe shell"

/-- Failures the engine can propagate: a malformed argument payload
(`json.loads` raising), an unknown function name (`get_function` raising),
or fuel exhaustion (a modelling artifact standing for unbounded
recursion). -/
inductive EngineError where
  | parseError (payload : String)
  | unknownFunction (name : String)
  | outOfFuel
  deriving DecidableEq

/-- The assistant message recording a function call
(handler.py lines 40-46). -/
def assistantCallRecord (name arguments : String) : Message :=
  { role := Role.assistant, content := "", name := none,
    function_call := some { name := name, arguments := arguments } }

/-- The function-role message holding a function's textual result
(handler.py line 58). -/
def functionResultRecord (name result : String) : Message :=
  { role := Role.function, content := result, name := some name,
    function_call := none }

/-- The joined keyword-argument rendering
(handler.py line 52: `", ".join(...)`). -/
def joinedArgs (d : List (String × String)) : String :=
  String.intercalate ", " (d.map fun kv => kv.1 ++ "=\"" ++ kv.2 ++ "\"")

/-- The human-readable trace fragment for a function call
(handler.py line 53). -/
def traceFragment (name : String) (d : List (String × String)) : String :=
  "> @FunctionCall `" ++ name ++ "(" ++ joinedArgs d ++ ")` \n\n"

/-- The fenced raw-output fragment (handler.py line 57). -/
def resultFragment (result : String) : String :=
  "```text\n" ++ result ++ "\n```\n"

/-- `Handler.handle_function_call` (handler.py lines 34-58): appends the
assistant function-call record, runs the always-after-append separator
check, parses the payload, invokes the registered function, optionally
echoes its raw output, and appends the function-result record. Returns the
fragments yielded so far, the conversation as mutated so far, and the error
if one was raised. -/
def handleFunctionCall (env : Env) (messages : List Message)
    (name arguments : String) :
    List String × List Message × Option EngineError :=
  let messages1 := messages ++ [assistantCallRecord name arguments]
  let sep : List String :=
    if messages1 ≠ [] ∧ (messages1.getLast?.map Message.role) = some Role.assistant
    then ["\n"] else []
  match env.parseArgs arguments with
  | none => (sep, messages1, some (EngineError.parseError arguments))
  | some dictArgs =>
    match env.getFunction name with
    | none =>
      (sep ++ [traceFragment name dictArgs], messages1,
       some (EngineError.unknownFunction name))
    | some f =>
      let result := f dictArgs
      let outFrags : List String :=
        if env.showFunctionsOutput then [resultFragment result] else []
      (sep ++ [traceFragment name dictArgs] ++ outFrags,
       messages1 ++ [functionResultRecord name result], none)

/-- One recursive continuation call of the engine
(handler.py lines 92-94: `self.get_completion(model, temperature, top_p,
messages, functions, caching=False)`), recorded for observation. -/
structure ContCall where
  caching : Bool
  model : String
  temperature : Rat
  top_p : Rat
  messages : List Message
  functions : Option (List FuncSchema)
  deriving DecidableEq

/-- Everything observable about one engine invocation: the fragments it
yields, the remote requests it issues (its own and its continuations'), the
direct continuation calls it makes, the conversation after it finishes, how
many chunks it read from its own channel, and the error it raised if any
(fragments before the raise are still listed, matching generator
semantics). -/
structure Outcome where
  fragments : List String
  requests : List Request
  contCalls : List ContCall
  messages : List Message
  chunksRead : Nat
  error : Option EngineError
  deriving DecidableEq

/-- The per-chunk accumulation of function-call data
(handler.py lines 85-89): a non-empty name overwrites the name accumulator,
a non-empty arguments fragment is appended to the arguments buffer; empty
strings and missing fields are falsy and skipped. -/
def stepAcc (acc : String × String) (chunk : Chunk) : String × String :=
  match chunk.delta.function_call with
  | none => acc
  | some fc =>
    let n := match fc.name with
      | some s => if s = "" then acc.1 else s
      | none => acc.1
    let a := match fc.arguments with
      | some s => if s = "" then acc.2 else acc.2 ++ s
      | none => acc.2
    (n, a)

/-- `delta.content or ""` (handler.py line 97): a missing content yields the
empty fragment (and `"" or ""` is `""`). -/
def contentOrEmpty : Option String → String
  | some s => s
  | none => ""

/-- The terminal branch of the streaming loop (handler.py lines 90-95):
`yield from handle_function_call`, then one recursive call with caching
disabled whose fragments are yielded through, then return. `recurse` is the
recursive entry (absent when fuel is exhausted) and `mkCont` builds the
observation record of the continuation call. -/
def onFunctionCallTermination (env : Env)
    (recurse : Option (List Message → Outcome))
    (mkCont : List Message → ContCall)
    (messages : List Message) (name arguments : String) : Outcome :=
  let h := handleFunctionCall env messages name arguments
  match h.2.2 with
  | some e =>
    { fragments := h.1, requests := [], contCalls := [], messages := h.2.1,
      chunksRead := 1, error := some e }
  | none =>
    match recurse with
    | none =>
      { fragments := h.1, requests := [], contCalls := [mkCont h.2.1],
        messages := h.2.1, chunksRead := 1,
        error := some EngineError.outOfFuel }
    | some r =>
      let inner := r h.2.1
      { fragments := h.1 ++ inner.fragments, requests := inner.requests,
        contCalls := [mkCont h.2.1], messages := inner.messages,
        chunksRead := 1, error := inner.error }

/-- The chunk-processing loop of `Handler.get_completion`
(handler.py lines 84-97): accumulate function-call data, divert to the
termination branch on finish reason "function_call", otherwise yield
`delta.content or ""` and continue with the remaining chunks. -/
def processChunksWith (env : Env)
    (recurse : Option (List Message → Outcome))
    (mkCont : List Message → ContCall)
    (messages : List Message) :
    String → String → List Chunk → Outcome
  | _, _, [] =>
    { fragments := [], requests := [], contCalls := [], messages := messages,
      chunksRead := 0, error := none }
  | name, arguments, chunk :: rest =>
    let acc := stepAcc (name, arguments) chunk
    if chunk.finish_reason = some "function_call" then
      onFunctionCallTermination env recurse mkCont messages acc.1 acc.2
    else
      let tail := processChunksWith env recurse mkCont messages acc.1 acc.2 rest
      { fragments := contentOrEmpty chunk.delta.content :: tail.fragments,
        requests := tail.requests, contCalls := tail.contCalls,
        messages := tail.messages, chunksRead := tail.chunksRead + 1,
        error := tail.error }

/-- The role-based forcing of the functions argument
(handler.py lines 70-74): the shell, code and describe-shell role variants
force `functions = None`; every other role passes the caller's value
through. -/
def forcedFunctions (roleName : String)
    (functions : Option (List FuncSchema)) : Option (List FuncSchema) :=
  if roleName = shellRoleName ∨ roleName = codeRoleName ∨
      roleName = describeShellRoleName
  then none else functions

/-- The request payload assembled at handler.py lines 76-82, always with
`stream=True`. -/
def buildRequest (model : String) (temperature top_p : Rat)
    (messages : List Message) (functions1 : Option (List FuncSchema)) :
    Request :=
  { model := model, temperature := temperature, top_p := top_p,
    messages := messages, functions := functions1, stream := true }

/-- The observation record of the continuation call at handler.py
lines 92-94: caching disabled, same model/temperature/top_p/functions,
extended conversation. -/
def mkContCall (model : String) (temperature top_p : Rat)
    (functions1 : Option (List FuncSchema)) : List Message → ContCall :=
  fun msgs =>
    { caching := false, model := model, temperature := temperature,
      top_p := top_p, messages := msgs, functions := functions1 }

/-- `Handler.get_completion` (handler.py lines 60-97): force
`functions = None` for the three tool-forbidding role variants, issue one
streaming request, and process its chunks; the recursive continuation is
made with caching disabled and the same model/temperature/top_p/functions.
`fuel` bounds the (in the source unbounded) recursion depth; `caching` is
accepted but consumed by the cache decorator, which is modelled separately
by `cacheRun`. -/
def getCompletion (env : Env) (roleName : String) (fuel : Nat)
    (caching : Bool) (model : String) (temperature top_p : Rat)
    (messages : List Message) (functions : Option (List FuncSchema)) :
    Outcome :=
  let functions1 := forcedFunctions roleName functions
  let req := buildRequest model temperature top_p messages functions1
  let recurse : Option (List Message → Outcome) :=
    match fuel with
    | 0 => none
    | Nat.succ f1 =>
      some fun msgs =>
        getCompletion env roleName f1 false model temperature top_p msgs
          functions1
  let out := processChunksWith env recurse
    (mkContCall model temperature top_p functions1)
    messages "" "" (env.service req)
  { fragments := out.fragments, requests := req :: out.requests,
    contCalls := out.contCalls, messages := out.messages,
    chunksRead := out.chunksRead, error := out.error }

/-- The recursive entry handed to the chunk loop by `getCompletion`:
absent at fuel zero, otherwise `getCompletion` itself at one less fuel with
caching disabled. -/
def recurseOf (env : Env) (roleName : String) (fuel : Nat) (model : String)
    (temperature top_p : Rat) (functions1 : Option (List FuncSchema)) :
    Option (List Message → Outcome) :=
  match fuel with
  | 0 => none
  | Nat.succ f1 =>
    some fun msgs =>
      getCompletion env roleName f1 false model temperature top_p msgs
        functions1

/-- Modelled from the spec: the Fingerprinting Cache of §4.1 (the
repository's cache module is referenced by the handler's `@cache` decorator
but is not among the given sources). The state is the ordered entry list,
oldest first. -/
structure CacheState where
  entries : List (Request × List String)
  deriving DecidableEq

/-- Modelled from the spec: cache lookup by key (structural equality of
request parameters, §3 CacheKey). -/
def cacheLookup (key : Request) :
    List (Request × List String) → Option (List String)
  | [] => none
  | e :: rest => if e.1 = key then some e.2 else cacheLookup key rest

/-- Modelled from the spec: oldest-first eviction down to the maximum entry
count (§3 cache store). -/
def cacheEvict (maxLength : Nat) (entries : List (Request × List String)) :
    List (Request × List String) :=
  entries.drop (entries.length - maxLength)

/-- Modelled from the spec: one guarded run of the cache wrapper (§4.1).
With caching disabled the live result passes through untouched; otherwise a
hit replays the stored fragments; a miss forwards the live fragments and,
only when the underlying stream completed without error, persists them with
eviction — a failed stream is never written. -/
def cacheRun (maxLength : Nat) (caching : Bool) (key : Request)
    (live : List String × Option EngineError) (st : CacheState) :
    (List String × Option EngineError) × CacheState :=
  if caching = false then (live, st)
  else
    match cacheLookup key st.entries with
    | some frags => ((frags, none), st)
    | none =>
      match live.2 with
      | some e => ((live.1, some e), st)
      | none =>
        ((live.1, none),
         { entries := cacheEvict maxLength (st.entries ++ [(key, live.1)]) })

/-- The non-empty function-name value a chunk carries, if any: exactly the
values that overwrite the name accumulator at handler.py lines 86-87. -/
def chunkNameVal (c : Chunk) : Option String :=
  match c.delta.function_call with
  | none => none
  | some fc =>
    match fc.name with
    | some s => if s = "" then none else some s
    | none => none

/-- The non-empty argument-payload fragment a chunk carries, if any: exactly
the values appended to the argument buffer at handler.py lines 88-89. -/
def chunkArgVal (c : Chunk) : Option String :=
  match c.delta.function_call with
  | none => none
  | some fc =>
    match fc.arguments with
    | some s => if s = "" then none else some s
    | none => none

/-! Concrete test fixtures used by witnesses and counterexamples. -/

/-- A plain user message. -/
def userMsg : Message :=
  { role := Role.user, content := "hi", name := none, function_call := none }

/-- A chunk carrying the full function-call data for `get_time` with the
payload `{}` (written with escaped braces). -/
def fcChunk1 : Chunk :=
  { delta := { content := none,
               function_call := some { name := some "get_time",
                                       arguments := some "\x7b\x7d" } },
    finish_reason := none }

/-- The terminal chunk with finish reason "function_call". -/
def fcChunk2 : Chunk :=
  { delta := { content := none, function_call := none },
    finish_reason := some "function_call" }

/-- A continuation chunk with plain content and finish reason "stop". -/
def contChunk : Chunk :=
  { delta := { content := some "It is noon.", function_call := none },
    finish_reason := some "stop" }

/-- A plain content chunk. -/
def cChunk1 : Chunk :=
  { delta := { content := some "Hel", function_call := none },
    finish_reason := none }

/-- A plain content chunk with finish reason "stop". -/
def cChunk2 : Chunk :=
  { delta := { content := some "lo", function_call := none },
    finish_reason := some "stop" }

/-- A chunk carrying only the partial function name "a". -/
def nameChunkA : Chunk :=
  { delta := { content := none,
               function_call := some { name := some "a",
                                       arguments := none } },
    finish_reason := none }

/-- A chunk carrying the partial function name "b" and the payload. -/
def nameChunkB : Chunk :=
  { delta := { content := none,
               function_call := some { name := some "b",
                                       arguments := some "\x7b\x7d" } },
    finish_reason := none }

/-- Test environment with a function-call stream on the initial request
(empty conversation) and a plain continuation stream afterwards. -/
def envA : Env :=
  { service := fun req =>
      if req.messages.length = 0 then [fcChunk1, fcChunk2] else [contChunk],
    parseArgs := fun s => if s = "\x7b\x7d" then some [] else none,
    getFunction := fun n =>
      if n = "get_time" then some (fun _ => "12:00") else none,
    showFunctionsOutput := false }

/-- Test environment whose stream carries two distinct non-empty partial
function names before the function-call termination. -/
def envC : Env :=
  { service := fun req =>
      if req.messages.length = 0 then [nameChunkA, nameChunkB, fcChunk2]
      else [],
    parseArgs := fun s => if s = "\x7b\x7d" then some [] else none,
    getFunction := fun _ => some fun _ => "r",
    showFunctionsOutput := false }

/-- Test environment whose argument payload never parses. -/
def envP : Env :=
  { service := fun req =>
      if req.messages.length = 0 then [fcChunk1, fcChunk2] else [],
    parseArgs := fun _ => none,
    getFunction := fun _ => none,
    showFunctionsOutput := false }

/-- Test environment with a plain two-chunk content stream. -/
def envS : Env :=
  { service := fun _ => [cChunk1, cChunk2],
    parseArgs := fun _ => none,
    getFunction := fun _ => none,
    showFunctionsOutput := false }

/-! Basic lemmas about the embedded definitions. -/

theorem getLast?_append_singleton {α : Type _} (l : List α) (a : α) :
    (l ++ [a]).getLast? = some a := by
  rw [List.getLast?_append_cons]
  rfl

/-- The separator guard of `handle_function_call` runs after the assistant
record was appended, so its condition always holds. -/
theorem sepCond_always (messages : List Message) (name arguments : String) :
    (messages ++ [assistantCallRecord name arguments]) ≠ [] ∧
      ((messages ++ [assistantCallRecord name arguments]).getLast?.map
        Message.role) = some Role.assistant := by
  refine ⟨by simp, ?_⟩
  rw [getLast?_append_singleton]
  rfl

theorem handleFunctionCall_parse_fail (env : Env) (messages : List Message)
    (name arguments : String) (h : env.parseArgs arguments = none) :
    handleFunctionCall env messages name arguments =
      (["\n"], messages ++ [assistantCallRecord name arguments],
        some (EngineError.parseError arguments)) := by
  have hc := sepCond_always messages name arguments
  simp only [handleFunctionCall, if_pos hc, h]

theorem handleFunctionCall_success (env : Env) (messages : List Message)
    (name arguments : String) (d : List (String × String))
    (f : List (String × String) → String)
    (hp : env.parseArgs arguments = some d)
    (hg : env.getFunction name = some f) :
    handleFunctionCall env messages name arguments =
      (["\n", traceFragment name d] ++
        (if env.showFunctionsOutput then [resultFragment (f d)] else []),
       messages ++ [assistantCallRecord name arguments,
         functionResultRecord name (f d)], none) := by
  have hc := sepCond_always messages name arguments
  simp only [handleFunctionCall, if_pos hc, hp, hg, List.append_assoc,
    List.cons_append, List.nil_append]

theorem onFunctionCallTermination_chunksRead (env : Env)
    (recurse : Option (List Message → Outcome))
    (mkCont : List Message → ContCall) (messages : List Message)
    (name arguments : String) :
    (onFunctionCallTermination env recurse mkCont messages name
      arguments).chunksRead = 1 := by
  cases h : (handleFunctionCall env messages name arguments).2.2 with
  | none =>
    cases recurse with
    | none => simp [onFunctionCallTermination, h]
    | some r => simp [onFunctionCallTermination, h]
  | some e => simp [onFunctionCallTermination, h]

theorem processChunksWith_nil (env : Env)
    (recurse : Option (List Message → Outcome))
    (mkCont : List Message → ContCall) (messages : List Message)
    (name arguments : String) :
    processChunksWith env recurse mkCont messages name arguments [] =
      { fragments := [], requests := [], contCalls := [],
        messages := messages, chunksRead := 0, error := none } := rfl

theorem processChunksWith_cons_term (env : Env)
    (recurse : Option (List Message → Outcome))
    (mkCont : List Message → ContCall) (messages : List Message)
    (name arguments : String) (chunk : Chunk) (rest : List Chunk)
    (hc : chunk.finish_reason = some "function_call") :
    processChunksWith env recurse mkCont messages name arguments
        (chunk :: rest) =
      onFunctionCallTermination env recurse mkCont messages
        (stepAcc (name, arguments) chunk).1
        (stepAcc (name, arguments) chunk).2 := by
  simp only [processChunksWith, if_pos hc]

theorem processChunksWith_cons_cont (env : Env)
    (recurse : Option (List Message → Outcome))
    (mkCont : List Message → ContCall) (messages : List Message)
    (name arguments : String) (chunk : Chunk) (rest : List Chunk)
    (hc : ¬ chunk.finish_reason = some "function_call") :
    processChunksWith env recurse mkCont messages name arguments
        (chunk :: rest) =
      (let tail := processChunksWith env recurse mkCont messages
          (stepAcc (name, arguments) chunk).1
          (stepAcc (name, arguments) chunk).2 rest
       { fragments := contentOrEmpty chunk.delta.content :: tail.fragments,
         requests := tail.requests, contCalls := tail.contCalls,
         messages := tail.messages, chunksRead := tail.chunksRead + 1,
         error := tail.error }) := by
  simp only [processChunksWith, if_neg hc]

/-- A stream with no function-call termination yields exactly one fragment
per chunk (the content, empty for missing content), makes no continuation
call, leaves the conversation unchanged, and ends without error. -/
theorem processChunksWith_clean (env : Env)
    (recurse : Option (List Message → Outcome))
    (mkCont : List Message → ContCall) (messages : List Message) :
    ∀ (chunks : List Chunk) (name arguments : String),
      (∀ c ∈ chunks, ¬ c.finish_reason = some "function_call") →
      processChunksWith env recurse mkCont messages name arguments chunks =
        { fragments := chunks.map (fun c => contentOrEmpty c.delta.content),
          requests := [], contCalls := [], messages := messages,
          chunksRead := chunks.length, error := none } := by
  intro chunks
  induction chunks with
  | nil => intro name arguments _; rfl
  | cons chunk rest ih =>
    intro name arguments h
    have hc : ¬ chunk.finish_reason = some "function_call" :=
      h chunk (List.mem_cons_self _ _)
    rw [processChunksWith_cons_cont env recurse mkCont messages name
      arguments chunk rest hc,
      ih (stepAcc (name, arguments) chunk).1
        (stepAcc (name, arguments) chunk).2
        (fun c hcm => h c (List.mem_cons_of_mem _ hcm))]
    rfl

/-- Splitting a stream at its first function-call termination: the clean
prefix contributes one content fragment per chunk, then the terminal branch
takes over with the function-call data accumulated across the prefix and
the terminal chunk; no chunk beyond the terminal one is read. -/
theorem processChunksWith_split (env : Env)
    (recurse : Option (List Message → Outcome))
    (mkCont : List Message → ContCall) (messages : List Message) :
    ∀ (pre : List Chunk) (c : Chunk) (post : List Chunk)
      (name arguments : String),
      (∀ x ∈ pre, ¬ x.finish_reason = some "function_call") →
      c.finish_reason = some "function_call" →
      (let term := onFunctionCallTermination env recurse mkCont messages
          ((pre ++ [c]).foldl stepAcc (name, arguments)).1
          ((pre ++ [c]).foldl stepAcc (name, arguments)).2
       processChunksWith env recurse mkCont messages name arguments
          (pre ++ c :: post) =
        { fragments :=
            pre.map (fun x => contentOrEmpty x.delta.content) ++
              term.fragments,
          requests := term.requests, contCalls := term.contCalls,
          messages := term.messages, chunksRead := pre.length + 1,
          error := term.error }) := by
  intro pre
  induction pre with
  | nil =>
    intro c post name arguments _ hc
    dsimp only
    rw [List.nil_append, processChunksWith_cons_term env recurse mkCont
      messages name arguments c post hc]
    have hk := onFunctionCallTermination_chunksRead env recurse mkCont
      messages (stepAcc (name, arguments) c).1 (stepAcc (name, arguments) c).2
    simp only [List.foldl_cons, List.foldl_nil, List.map_nil,
      List.nil_append, List.length_nil, Nat.zero_add]
    rw [← hk]
  | cons chunk rest ih =>
    intro c post name arguments h hc
    have hchunk : ¬ chunk.finish_reason = some "function_call" :=
      h chunk (List.mem_cons_self _ _)
    dsimp only
    rw [List.cons_append, processChunksWith_cons_cont env recurse mkCont
      messages name arguments chunk (rest ++ c :: post) hchunk]
    have hrec := ih c post (stepAcc (name, arguments) chunk).1
      (stepAcc (name, arguments) chunk).2
      (fun x hx => h x (List.mem_cons_of_mem _ hx)) hc
    dsimp only at hrec
    dsimp only
    rw [hrec]
    simp only [List.cons_append, List.foldl_cons, List.map_cons,
      List.length_cons]

/-- One-step unfolding of `getCompletion` in terms of the named pieces. -/
theorem getCompletion_eq (env : Env) (roleName : String) (fuel : Nat)
    (caching : Bool) (model : String) (temperature top_p : Rat)
    (messages : List Message) (functions : Option (List FuncSchema)) :
    getCompletion env roleName fuel caching model temperature top_p messages
        functions =
      (let functions1 := forcedFunctions roleName functions
       let out := processChunksWith env
         (recurseOf env roleName fuel model temperature top_p functions1)
         (mkContCall model temperature top_p functions1) messages "" ""
         (env.service
           (buildRequest model temperature top_p messages functions1))
       { fragments := out.fragments,
         requests :=
           buildRequest model temperature top_p messages functions1 ::
             out.requests,
         contCalls := out.contCalls, messages := out.messages,
         chunksRead := out.chunksRead, error := out.error }) := by
  cases fuel <;> rfl

/-- The name accumulator after one chunk: a carried non-empty name
overwrites it, anything else keeps it. -/
theorem stepAcc_fst (acc : String × String) (c : Chunk) :
    (stepAcc acc c).1 = (chunkNameVal c).getD acc.1 := by
  obtain ⟨⟨content, fcall⟩, fin⟩ := c
  cases fcall with
  | none => rfl
  | some fc =>
    obtain ⟨n, a⟩ := fc
    cases n with
    | none => rfl
    | some s => by_cases hs : s = "" <;> simp [stepAcc, chunkNameVal, hs]

/-- The argument buffer after one chunk: a carried non-empty payload
fragment is appended, anything else keeps the buffer. -/
theorem stepAcc_snd (acc : String × String) (c : Chunk) :
    (stepAcc acc c).2 = acc.2 ++ (chunkArgVal c).getD "" := by
  obtain ⟨⟨content, fcall⟩, fin⟩ := c
  cases fcall with
  | none => simp [stepAcc, chunkArgVal]
  | some fc =>
    obtain ⟨n, a⟩ := fc
    cases a with
    | none => simp [stepAcc, chunkArgVal]
    | some s => by_cases hs : s = "" <;> simp [stepAcc, chunkArgVal, hs]

theorem getLast?_cons_getD {α : Type _} (a d : α) (l : List α) :
    ((a :: l).getLast?).getD d = (l.getLast?).getD a := by
  cases l with
  | nil => rfl
  | cons b t =>
    rw [List.getLast?_cons_cons]
    cases h : (b :: t).getLast? with
    | none =>
      rw [List.getLast?_eq_none_iff] at h
      exact absurd h (by simp)
    | some x => rfl

/-- The accumulated function name over a chunk sequence is the last
non-empty name value seen (the accumulator's start if none is seen). -/
theorem foldl_stepAcc_fst :
    ∀ (chunks : List Chunk) (name arguments : String),
      (chunks.foldl stepAcc (name, arguments)).1 =
        ((chunks.filterMap chunkNameVal).getLast?).getD name := by
  intro chunks
  induction chunks with
  | nil => intro name arguments; rfl
  | cons c rest ih =>
    intro name arguments
    rw [List.foldl_cons, List.filterMap_cons]
    cases hn : chunkNameVal c with
    | none =>
      rw [ih (stepAcc (name, arguments) c).1 (stepAcc (name, arguments) c).2,
        stepAcc_fst, hn]
      rfl
    | some s =>
      rw [ih (stepAcc (name, arguments) c).1 (stepAcc (name, arguments) c).2,
        stepAcc_fst, hn, getLast?_cons_getD]
      rfl

theorem foldl_append_init (l : List String) :
    ∀ s : String,
      List.foldl (fun r t => r ++ t) s l =
        s ++ List.foldl (fun r t => r ++ t) "" l := by
  induction l with
  | nil => intro s; simp
  | cons x xs ih =>
    intro s
    rw [List.foldl_cons, List.foldl_cons, ih (s ++ x), ih ("" ++ x)]
    simp [String.append_assoc]

/-- The accumulated argument buffer over a chunk sequence is the in-order
concatenation of all non-empty payload fragments, appended to the
accumulator's start. -/
theorem foldl_stepAcc_snd :
    ∀ (chunks : List Chunk) (name arguments : String),
      (chunks.foldl stepAcc (name, arguments)).2 =
        arguments ++ String.join (chunks.filterMap chunkArgVal) := by
  intro chunks
  induction chunks with
  | nil => intro name arguments; simp [String.join]
  | cons c rest ih =>
    intro name arguments
    rw [List.foldl_cons, List.filterMap_cons]
    cases ha : chunkArgVal c with
    | none =>
      rw [ih (stepAcc (name, arguments) c).1 (stepAcc (name, arguments) c).2,
        stepAcc_snd, ha]
      simp
    | some s =>
      rw [ih (stepAcc (name, arguments) c).1 (stepAcc (name, arguments) c).2,
        stepAcc_snd, ha]
      simp only [String.join, List.foldl_cons, Option.getD_some]
      rw [foldl_append_init _ ("" ++ s), String.append_assoc]
      simp

/-- `handle_function_call` only ever appends to the conversation. -/
theorem handleFunctionCall_messages_extend (env : Env)
    (messages : List Message) (name arguments : String) :
    ∃ s, (handleFunctionCall env messages name arguments).2.1 =
      messages ++ s := by
  unfold handleFunctionCall
  cases env.parseArgs arguments with
  | none => exact ⟨[assistantCallRecord name arguments], rfl⟩
  | some d =>
    cases env.getFunction name with
    | none => exact ⟨[assistantCallRecord name arguments], rfl⟩
    | some f =>
      exact ⟨[assistantCallRecord name arguments] ++
        [functionResultRecord name (f d)], List.append_assoc _ _ _⟩

/-- The terminal branch only ever appends to the conversation, provided the
recursive entry does. -/
theorem onFunctionCallTermination_messages_extend (env : Env)
    (recurse : Option (List Message → Outcome))
    (mkCont : List Message → ContCall) (messages : List Message)
    (name arguments : String)
    (hrec : ∀ r, recurse = some r →
      ∀ msgs, ∃ s, (r msgs).messages = msgs ++ s) :
    ∃ s, (onFunctionCallTermination env recurse mkCont messages name
      arguments).messages = messages ++ s := by
  obtain ⟨s1, hs1⟩ := handleFunctionCall_messages_extend env messages name
    arguments
  unfold onFunctionCallTermination
  dsimp only
  cases hh : (handleFunctionCall env messages name arguments).2.2 with
  | some e => exact ⟨s1, hs1⟩
  | none =>
    cases recurse with
    | none => exact ⟨s1, hs1⟩
    | some r =>
      obtain ⟨s2, hs2⟩ := hrec r rfl
        ((handleFunctionCall env messages name arguments).2.1)
      refine ⟨s1 ++ s2, ?_⟩
      dsimp only
      rw [hs2, hs1, List.append_assoc]

/-- The chunk loop only ever appends to the conversation, provided the
recursive entry does. -/
theorem processChunksWith_messages_extend (env : Env)
    (recurse : Option (List Message → Outcome))
    (mkCont : List Message → ContCall)
    (hrec : ∀ r, recurse = some r →
      ∀ msgs, ∃ s, (r msgs).messages = msgs ++ s) :
    ∀ (chunks : List Chunk) (messages : List Message)
      (name arguments : String),
      ∃ s, (processChunksWith env recurse mkCont messages name arguments
        chunks).messages = messages ++ s := by
  intro chunks
  induction chunks with
  | nil =>
    intro messages name arguments
    exact ⟨[], by simp [processChunksWith_nil]⟩
  | cons chunk rest ih =>
    intro messages name arguments
    by_cases hc : chunk.finish_reason = some "function_call"
    · simp only [processChunksWith_cons_term env recurse mkCont messages
        name arguments chunk rest hc]
      exact onFunctionCallTermination_messages_extend env recurse mkCont
        messages _ _ hrec
    · simp only [processChunksWith_cons_cont env recurse mkCont messages
        name arguments chunk rest hc]
      obtain ⟨s, hs⟩ := ih messages (stepAcc (name, arguments) chunk).1
        (stepAcc (name, arguments) chunk).2
      exact ⟨s, hs⟩

/-- The engine only ever appends to the conversation. -/
theorem getCompletion_messages_extend (env : Env) (roleName : String) :
    ∀ (fuel : Nat) (caching : Bool) (model : String)
      (temperature top_p : Rat) (messages : List Message)
      (functions : Option (List FuncSchema)),
      ∃ s, (getCompletion env roleName fuel caching model temperature top_p
        messages functions).messages = messages ++ s := by
  intro fuel
  induction fuel with
  | zero =>
    intro caching model t p messages functions
    obtain ⟨s, hs⟩ := processChunksWith_messages_extend env
      (recurseOf env roleName 0 model t p (forcedFunctions roleName functions))
      (mkContCall model t p (forcedFunctions roleName functions))
      (fun r hr => by simp [recurseOf] at hr)
      (env.service (buildRequest model t p messages
        (forcedFunctions roleName functions)))
      messages "" ""
    exact ⟨s, by rw [getCompletion_eq]; exact hs⟩
  | succ f1 ih =>
    intro caching model t p messages functions
    obtain ⟨s, hs⟩ := processChunksWith_messages_extend env
      (recurseOf env roleName (Nat.succ f1) model t p
        (forcedFunctions roleName functions))
      (mkContCall model t p (forcedFunctions roleName functions))
      (fun r hr msgs => by
        simp only [recurseOf, Option.some.injEq] at hr
        rw [← hr]
        exact ih false model t p msgs (forcedFunctions roleName functions))
      (env.service (buildRequest model t p messages
        (forcedFunctions roleName functions)))
      messages "" ""
    exact ⟨s, by rw [getCompletion_eq]; exact hs⟩

/-- The role forcing either passes the caller's functions through or
replaces them with none. -/
theorem forcedFunctions_cases (roleName : String)
    (functions : Option (List FuncSchema)) :
    forcedFunctions roleName functions = functions ∨
      forcedFunctions roleName functions = none := by
  unfold forcedFunctions
  by_cases h : roleName = shellRoleName ∨ roleName = codeRoleName ∨
    roleName = describeShellRoleName
  · rw [if_pos h]; right; rfl
  · rw [if_neg h]; left; rfl

/-- Requests recorded by the terminal branch all come from the recursive
entry. -/
theorem onFunctionCallTermination_requests (env : Env)
    (recurse : Option (List Message → Outcome))
    (mkCont : List Message → ContCall) (messages : List Message)
    (name arguments : String) (P : Request → Prop)
    (hrec : ∀ r, recurse = some r →
      ∀ msgs req, req ∈ (r msgs).requests → P req) :
    ∀ req ∈ (onFunctionCallTermination env recurse mkCont messages name
      arguments).requests, P req := by
  intro req h
  cases hh : (handleFunctionCall env messages name arguments).2.2 with
  | some e => simp [onFunctionCallTermination, hh] at h
  | none =>
    cases hr : recurse with
    | none => simp [onFunctionCallTermination, hh, hr] at h
    | some r =>
      simp only [onFunctionCallTermination, hh, hr] at h
      exact hrec r hr _ req h

/-- Requests recorded by the chunk loop all come from the recursive
entry. -/
theorem processChunksWith_requests (env : Env)
    (recurse : Option (List Message → Outcome))
    (mkCont : List Message → ContCall) (P : Request → Prop)
    (hrec : ∀ r, recurse = some r →
      ∀ msgs req, req ∈ (r msgs).requests → P req) :
    ∀ (chunks : List Chunk) (messages : List Message)
      (name arguments : String) (req : Request),
      req ∈ (processChunksWith env recurse mkCont messages name arguments
        chunks).requests → P req := by
  intro chunks
  induction chunks with
  | nil =>
    intro messages name arguments req h
    simp [processChunksWith_nil] at h
  | cons chunk rest ih =>
    intro messages name arguments req h
    by_cases hc : chunk.finish_reason = some "function_call"
    · rw [processChunksWith_cons_term env recurse mkCont messages name
        arguments chunk rest hc] at h
      exact onFunctionCallTermination_requests env recurse mkCont messages
        _ _ P hrec req h
    · rw [processChunksWith_cons_cont env recurse mkCont messages name
        arguments chunk rest hc] at h
      dsimp only at h
      exact ih messages (stepAcc (name, arguments) chunk).1
        (stepAcc (name, arguments) chunk).2 req h

/-- Every remote request the engine issues, at any recursion depth, keeps
the invocation's model, temperature and top_p, has the stream flag set, and
carries either the caller's functions value or none. -/
theorem getCompletion_requests (env : Env) (roleName : String)
    (model : String) (temperature top_p : Rat) :
    ∀ (fuel : Nat) (caching : Bool) (messages : List Message)
      (functions : Option (List FuncSchema)) (req : Request),
      req ∈ (getCompletion env roleName fuel caching model temperature top_p
        messages functions).requests →
      req.model = model ∧ req.temperature = temperature ∧
        req.top_p = top_p ∧ req.stream = true ∧
        (req.functions = functions ∨ req.functions = none) := by
  intro fuel
  induction fuel with
  | zero =>
    intro caching messages functions req h
    rw [getCompletion_eq] at h
    dsimp only at h
    rcases List.mem_cons.mp h with h | h
    · subst h
      exact ⟨rfl, rfl, rfl, rfl, forcedFunctions_cases roleName functions⟩
    · exact absurd h (by
        intro hmem
        exact (processChunksWith_requests env
          (recurseOf env roleName 0 model temperature top_p
            (forcedFunctions roleName functions))
          (mkContCall model temperature top_p
            (forcedFunctions roleName functions))
          (fun _ => False)
          (fun r hr => by simp [recurseOf] at hr) _ _ _ _ req hmem))
  | succ f1 ih =>
    intro caching messages functions req h
    rw [getCompletion_eq] at h
    dsimp only at h
    rcases List.mem_cons.mp h with h | h
    · subst h
      exact ⟨rfl, rfl, rfl, rfl, forcedFunctions_cases roleName functions⟩
    · refine processChunksWith_requests env
        (recurseOf env roleName (Nat.succ f1) model temperature top_p
          (forcedFunctions roleName functions))
        (mkContCall model temperature top_p
          (forcedFunctions roleName functions))
        (fun req => req.model = model ∧ req.temperature = temperature ∧
          req.top_p = top_p ∧ req.stream = true ∧
          (req.functions = functions ∨ req.functions = none))
        (fun r hr msgs req2 hmem => ?_) _ _ _ _ req h
      simp only [recurseOf, Option.some.injEq] at hr
      rw [← hr] at hmem
      obtain ⟨h1, h2, h3, h4, h5⟩ := ih false msgs
        (forcedFunctions roleName functions) req2 hmem
      refine ⟨h1, h2, h3, h4, ?_⟩
      rcases forcedFunctions_cases roleName functions with hf | hf
      · rw [hf] at h5
        exact h5
      · rw [hf] at h5
        rcases h5 with h5 | h5
        · right; exact h5
        · right; exact h5

/-- The terminal branch when the payload parses and the function resolves:
separator, trace note, optional raw output, then every fragment of the
recursive call on the conversation extended by exactly the two records. -/
theorem onFunctionCallTermination_success (env : Env)
    (r : List Message → Outcome) (mkCont : List Message → ContCall)
    (messages : List Message) (name arguments : String)
    (d : List (String × String)) (f : List (String × String) → String)
    (hp : env.parseArgs arguments = some d)
    (hg : env.getFunction name = some f) :
    onFunctionCallTermination env (some r) mkCont messages name arguments =
      (let msgs2 := messages ++ [assistantCallRecord name arguments,
         functionResultRecord name (f d)]
       let inner := r msgs2
       { fragments := (["\n", traceFragment name d] ++
           (if env.showFunctionsOutput then [resultFragment (f d)]
            else [])) ++ inner.fragments,
         requests := inner.requests, contCalls := [mkCont msgs2],
         messages := inner.messages, chunksRead := 1,
         error := inner.error }) := by
  have hh := handleFunctionCall_success env messages name arguments d f hp hg
  simp only [onFunctionCallTermination, hh]

/-- The terminal branch when the payload fails to parse: the separator was
already yielded, the assistant record already appended, and the failure
propagates with no continuation call. -/
theorem onFunctionCallTermination_parse_fail (env : Env)
    (recurse : Option (List Message → Outcome))
    (mkCont : List Message → ContCall) (messages : List Message)
    (name arguments : String)
    (hp : env.parseArgs arguments = none) :
    onFunctionCallTermination env recurse mkCont messages name arguments =
      { fragments := ["\n"], requests := [], contCalls := [],
        messages := messages ++ [assistantCallRecord name arguments],
        chunksRead := 1,
        error := some (EngineError.parseError arguments) } := by
  have hh := handleFunctionCall_parse_fail env messages name arguments hp
  simp only [onFunctionCallTermination, hh]

/-- C1: in a stream whose terminal chunk carries finish reason
"function_call" (with the accumulated payload parsing and the function
resolving), the engine makes exactly one continuation call, with caching
disabled and the same model/temperature/top_p/functions; the conversation
passed to it is the original plus exactly two messages — first the
assistant function-call record, then the function-result message; the
invocation yields the clean prefix's content fragments, then the handler's
fragments, then every fragment of the continuation, and reads no chunk of
the original channel beyond the terminal one. -/
theorem function_call_single_uncached_continuation (env : Env)
    (roleName : String) (fuel1 : Nat) (caching : Bool) (model : String)
    (temperature top_p : Rat) (messages : List Message)
    (functions functions1 : Option (List FuncSchema))
    (pre post : List Chunk) (c : Chunk) (acc : String × String)
    (d : List (String × String)) (f : List (String × String) → String)
    (hfun : functions1 = forcedFunctions roleName functions)
    (hserv : env.service (buildRequest model temperature top_p messages
      functions1) = pre ++ c :: post)
    (hpre : ∀ x ∈ pre, ¬ x.finish_reason = some "function_call")
    (hc : c.finish_reason = some "function_call")
    (hacc : acc = (pre ++ [c]).foldl stepAcc ("", ""))
    (hparse : env.parseArgs acc.2 = some d)
    (hget : env.getFunction acc.1 = some f) :
    (getCompletion env roleName (fuel1 + 1) caching model temperature top_p
      messages functions).contCalls =
      [{ caching := false, model := model, temperature := temperature,
         top_p := top_p,
         messages := messages ++ [assistantCallRecord acc.1 acc.2,
           functionResultRecord acc.1 (f d)],
         functions := functions1 }] ∧
    (getCompletion env roleName (fuel1 + 1) caching model temperature top_p
      messages functions).chunksRead = pre.length + 1 ∧
    (getCompletion env roleName (fuel1 + 1) caching model temperature top_p
      messages functions).fragments =
      pre.map (fun x => contentOrEmpty x.delta.content) ++
        ((["\n", traceFragment acc.1 d] ++
          (if env.showFunctionsOutput then [resultFragment (f d)]
           else [])) ++
          (getCompletion env roleName fuel1 false model temperature top_p
            (messages ++ [assistantCallRecord acc.1 acc.2,
              functionResultRecord acc.1 (f d)]) functions1).fragments) := by
  subst hfun
  subst hacc
  rw [getCompletion_eq]
  dsimp only
  rw [hserv]
  have hsplit := processChunksWith_split env
    (recurseOf env roleName (fuel1 + 1) model temperature top_p
      (forcedFunctions roleName functions))
    (mkContCall model temperature top_p (forcedFunctions roleName functions))
    messages pre c post "" "" hpre hc
  dsimp only at hsplit
  rw [hsplit]
  have hrec : recurseOf env roleName (fuel1 + 1) model temperature top_p
      (forcedFunctions roleName functions) =
      some (fun msgs => getCompletion env roleName fuel1 false model
        temperature top_p msgs (forcedFunctions roleName functions)) := rfl
  rw [hrec, onFunctionCallTermination_success env _
    (mkContCall model temperature top_p (forcedFunctions roleName functions))
    messages _ _ d f hparse hget]
  dsimp only
  refine ⟨rfl, rfl, rfl⟩

/-- Witness for C1 at a concrete stream: the `get_time` call with payload
`{}` triggers one caching-disabled continuation on the conversation
extended by the two records, reads two chunks, and yields the separator,
the trace note and the continuation's fragments. -/
theorem function_call_single_uncached_continuation_witness :
    (getCompletion envA "default" 1 true "gpt-4" 1 1 [] none).contCalls =
      [{ caching := false, model := "gpt-4", temperature := 1, top_p := 1,
         messages := [assistantCallRecord "get_time" "\x7b\x7d",
           functionResultRecord "get_time" "12:00"],
         functions := none }] ∧
    (getCompletion envA "default" 1 true "gpt-4" 1 1 [] none).chunksRead =
      2 ∧
    (getCompletion envA "default" 1 true "gpt-4" 1 1 [] none).fragments =
      ["", "\n", "> @FunctionCall `get_time()` \n\n", "It is noon."] := by
  have h := function_call_single_uncached_continuation envA "default" 0 true
    "gpt-4" 1 1 [] none none [fcChunk1] [] fcChunk2
    ("get_time", "\x7b\x7d") [] (fun _ => "12:00") (by decide) (by decide)
    (by decide) rfl (by decide) rfl rfl
  exact ⟨h.1.trans (by decide), h.2.1.trans (by decide),
    h.2.2.trans (by decide)⟩

/-- C2 counterexample: with the shell role (a tool-forbidding variant) and
a service that returns function-call chunks anyway, the engine does take
the function-execution path — the registry is invoked (its result lands in
the conversation) and a continuation call is made — refuting the claim that
this path is never taken. -/
theorem forbidden_role_function_call_executed_counterexample :
    (shellRoleName = shellRoleName ∨ shellRoleName = codeRoleName ∨
      shellRoleName = describeShellRoleName) ∧
    (getCompletion envA shellRoleName 1 true "gpt-4" 1 1 []
      (some [[("n", "v")]])).contCalls.length = 1 ∧
    (getCompletion envA shellRoleName 1 true "gpt-4" 1 1 []
      (some [[("n", "v")]])).messages =
      [assistantCallRecord "get_time" "\x7b\x7d",
       functionResultRecord "get_time" "12:00"] := by
  exact ⟨Or.inl rfl, by decide, by decide⟩

/-- C2 (amended): for a tool-forbidding role the request is issued with
functions = none, but the chunk-processing loop is role-independent: a
function-call termination returned by the service despite the forced none
is still interpreted and executed exactly as for other roles — one
caching-disabled continuation call on the extended conversation. -/
theorem forbidden_role_forces_none_but_still_executes (env : Env)
    (roleName : String) (fuel1 : Nat) (caching : Bool) (model : String)
    (temperature top_p : Rat) (messages : List Message)
    (functions : Option (List FuncSchema)) (pre post : List Chunk)
    (c : Chunk) (acc : String × String) (d : List (String × String))
    (f : List (String × String) → String)
    (hrole : roleName = shellRoleName ∨ roleName = codeRoleName ∨
      roleName = describeShellRoleName)
    (hserv : env.service (buildRequest model temperature top_p messages
      none) = pre ++ c :: post)
    (hpre : ∀ x ∈ pre, ¬ x.finish_reason = some "function_call")
    (hc : c.finish_reason = some "function_call")
    (hacc : acc = (pre ++ [c]).foldl stepAcc ("", ""))
    (hparse : env.parseArgs acc.2 = some d)
    (hget : env.getFunction acc.1 = some f) :
    (getCompletion env roleName (fuel1 + 1) caching model temperature top_p
      messages functions).requests.head? =
      some (buildRequest model temperature top_p messages none) ∧
    (getCompletion env roleName (fuel1 + 1) caching model temperature top_p
      messages functions).contCalls =
      [{ caching := false, model := model, temperature := temperature,
         top_p := top_p,
         messages := messages ++ [assistantCallRecord acc.1 acc.2,
           functionResultRecord acc.1 (f d)],
         functions := none }] := by
  subst hacc
  have hf : forcedFunctions roleName functions = none := by
    unfold forcedFunctions
    rw [if_pos hrole]
  rw [getCompletion_eq]
  dsimp only
  rw [hf, hserv]
  have hsplit := processChunksWith_split env
    (recurseOf env roleName (fuel1 + 1) model temperature top_p none)
    (mkContCall model temperature top_p none)
    messages pre c post "" "" hpre hc
  dsimp only at hsplit
  rw [hsplit]
  have hrec : recurseOf env roleName (fuel1 + 1) model temperature top_p
      none =
      some (fun msgs => getCompletion env roleName fuel1 false model
        temperature top_p msgs none) := rfl
  rw [hrec, onFunctionCallTermination_success env _
    (mkContCall model temperature top_p none) messages _ _ d f hparse hget]
  dsimp only
  refine ⟨rfl, rfl⟩

/-- Witness for the amended C2: the shell role with chunks announcing
`get_time` — the request carries functions = none, yet the call is
executed and one continuation made. -/
theorem forbidden_role_forces_none_but_still_executes_witness :
    (getCompletion envA shellRoleName 1 true "gpt-4" 1 1 []
      (some [[("n", "v")]])).requests.head? =
      some (buildRequest "gpt-4" 1 1 [] none) ∧
    (getCompletion envA shellRoleName 1 true "gpt-4" 1 1 []
      (some [[("n", "v")]])).contCalls =
      [{ caching := false, model := "gpt-4", temperature := 1, top_p := 1,
         messages := [assistantCallRecord "get_time" "\x7b\x7d",
           functionResultRecord "get_time" "12:00"],
         functions := none }] := by
  have h := forbidden_role_forces_none_but_still_executes envA shellRoleName
    0 true "gpt-4" 1 1 [] (some [[("n", "v")]]) [fcChunk1] [] fcChunk2
    ("get_time", "\x7b\x7d") [] (fun _ => "12:00") (Or.inl rfl) (by decide)
    (by decide) rfl (by decide) rfl rfl
  exact ⟨h.1, h.2.trans (by decide)⟩

theorem getElem?_append_length {α : Type _} (l t : List α) (a : α) :
    (l ++ a :: t)[l.length]? = some a := by
  rw [List.getElem?_append_right (Nat.le_refl _)]
  simp

/-- The conversation after `handle_function_call` starts with the original
messages followed immediately by the assistant function-call record. -/
theorem handleFunctionCall_messages_prefix (env : Env)
    (messages : List Message) (name arguments : String) :
    ∃ s, (handleFunctionCall env messages name arguments).2.1 =
      (messages ++ [assistantCallRecord name arguments]) ++ s := by
  unfold handleFunctionCall
  cases env.parseArgs arguments with
  | none => exact ⟨[], by simp⟩
  | some d =>
    cases env.getFunction name with
    | none => exact ⟨[], by simp⟩
    | some f => exact ⟨[functionResultRecord name (f d)], rfl⟩

/-- The conversation after the terminal branch starts with the original
messages followed immediately by the assistant function-call record,
provided the recursive entry only appends. -/
theorem onFunctionCallTermination_messages_prefix (env : Env)
    (recurse : Option (List Message → Outcome))
    (mkCont : List Message → ContCall) (messages : List Message)
    (name arguments : String)
    (hrec : ∀ r, recurse = some r →
      ∀ msgs, ∃ s, (r msgs).messages = msgs ++ s) :
    ∃ s, (onFunctionCallTermination env recurse mkCont messages name
      arguments).messages =
      (messages ++ [assistantCallRecord name arguments]) ++ s := by
  obtain ⟨s1, hs1⟩ := handleFunctionCall_messages_prefix env messages name
    arguments
  cases hh : (handleFunctionCall env messages name arguments).2.2 with
  | some e =>
    exact ⟨s1, by simp only [onFunctionCallTermination, hh]; exact hs1⟩
  | none =>
    cases hr : recurse with
    | none =>
      exact ⟨s1, by simp only [onFunctionCallTermination, hh]; exact hs1⟩
    | some r =>
      obtain ⟨s2, hs2⟩ := hrec r hr
        ((handleFunctionCall env messages name arguments).2.1)
      refine ⟨s1 ++ s2, ?_⟩
      simp only [onFunctionCallTermination, hh]
      rw [hs2, hs1, List.append_assoc]

/-- C3 counterexample: a stream carrying the non-empty partial names "a"
then "b" — the first non-empty name value is "a", but the assistant record
the engine appends carries "b": the last non-empty value wins, refuting
"first non-empty value wins". -/
theorem accumulated_name_first_wins_counterexample :
    ((envC.service (buildRequest "gpt-4" 1 1 [] none)).filterMap
      chunkNameVal).head? = some "a" ∧
    (getCompletion envC "default" 1 true "gpt-4" 1 1 [] none).messages.head?
      = some (assistantCallRecord "b" "\x7b\x7d") := by
  exact ⟨by decide, by decide⟩

/-- C3 (amended): the accumulated function name at a function-call
termination is the last non-empty name value seen across the chunks up to
and including the terminal one, and the argument buffer is the in-order
concatenation of all non-empty argument-payload fragments; the assistant
record the engine appends (at the position right after the original
conversation) carries exactly this accumulated pair. -/
theorem accumulation_last_name_concat_args (env : Env) (roleName : String)
    (fuel : Nat) (caching : Bool) (model : String) (temperature top_p : Rat)
    (messages : List Message)
    (functions functions1 : Option (List FuncSchema))
    (pre post : List Chunk) (c : Chunk)
    (hfun : functions1 = forcedFunctions roleName functions)
    (hserv : env.service (buildRequest model temperature top_p messages
      functions1) = pre ++ c :: post)
    (hpre : ∀ x ∈ pre, ¬ x.finish_reason = some "function_call")
    (hc : c.finish_reason = some "function_call") :
    (pre ++ [c]).foldl stepAcc ("", "") =
      ((((pre ++ [c]).filterMap chunkNameVal).getLast?).getD "",
       String.join ((pre ++ [c]).filterMap chunkArgVal)) ∧
    (getCompletion env roleName fuel caching model temperature top_p
      messages functions).messages[messages.length]? =
      some (assistantCallRecord ((pre ++ [c]).foldl stepAcc ("", "")).1
        ((pre ++ [c]).foldl stepAcc ("", "")).2) := by
  constructor
  · refine Prod.ext ?_ ?_
    · exact foldl_stepAcc_fst (pre ++ [c]) "" ""
    · have h2 := foldl_stepAcc_snd (pre ++ [c]) "" ""
      rw [h2]
      exact String.empty_append _
  · subst hfun
    rw [getCompletion_eq]
    dsimp only
    rw [hserv]
    have hsplit := processChunksWith_split env
      (recurseOf env roleName fuel model temperature top_p
        (forcedFunctions roleName functions))
      (mkContCall model temperature top_p
        (forcedFunctions roleName functions))
      messages pre c post "" "" hpre hc
    dsimp only at hsplit
    rw [hsplit]
    have hrec : ∀ r, recurseOf env roleName fuel model temperature top_p
        (forcedFunctions roleName functions) = some r →
        ∀ msgs, ∃ s, (r msgs).messages = msgs ++ s := by
      intro r hr msgs
      cases fuel with
      | zero => simp [recurseOf] at hr
      | succ f1 =>
        simp only [recurseOf, Option.some.injEq] at hr
        rw [← hr]
        exact getCompletion_messages_extend env roleName f1 false model
          temperature top_p msgs (forcedFunctions roleName functions)
    obtain ⟨s, hs⟩ := onFunctionCallTermination_messages_prefix env
      (recurseOf env roleName fuel model temperature top_p
        (forcedFunctions roleName functions))
      (mkContCall model temperature top_p
        (forcedFunctions roleName functions))
      messages ((pre ++ [c]).foldl stepAcc ("", "")).1
      ((pre ++ [c]).foldl stepAcc ("", "")).2 hrec
    dsimp only
    rw [hs, List.append_assoc, List.singleton_append,
      getElem?_append_length]

/-- Witness for the amended C3: with names "a" then "b" in the stream the
accumulated pair is ("b", the payload), and the record at position 0 of the
resulting conversation carries it. -/
theorem accumulation_last_name_concat_args_witness :
    ([nameChunkA, nameChunkB] ++ [fcChunk2]).foldl stepAcc ("", "") =
      ("b", "\x7b\x7d") ∧
    (getCompletion envC "default" 1 true "gpt-4" 1 1 []
      none).messages[(0 : Nat)]? =
      some (assistantCallRecord "b" "\x7b\x7d") := by
  have h := accumulation_last_name_concat_args envC "default" 1 true "gpt-4"
    1 1 [] none none [nameChunkA, nameChunkB] [] fcChunk2 (by decide)
    (by decide) (by decide) rfl
  exact ⟨h.1.trans (by decide), h.2.trans (by decide)⟩

/-- C4 counterexample: handling a function call when the message preceding
this turn's assistant record has role "user" — the claim predicts no
separator, but the engine emits the separator anyway, and emits it before
(not after) the trace note: the guard inspects the just-appended assistant
record, which always has role assistant. -/
theorem separator_iff_assistant_predecessor_counterexample :
    [userMsg].getLast?.map Message.role = some Role.user ∧
    Role.user ≠ Role.assistant ∧
    (handleFunctionCall envA [userMsg] "get_time" "\x7b\x7d").1 =
      ["\n", "> @FunctionCall `get_time()` \n\n"] := by
  exact ⟨by decide, by decide, by decide⟩

/-- C4 (amended): when a function-call termination is handled (payload
parsing and registry lookup succeeding), the engine emits the structural
separator fragment unconditionally — the guard runs after the assistant
function-call record is appended, so it always sees role assistant — and
the separator precedes the quoted inline trace note naming the function
and its parsed keyword arguments (followed by the optional raw-output
block). -/
theorem separator_always_emitted_before_trace (env : Env)
    (messages : List Message) (name arguments : String)
    (d : List (String × String)) (f : List (String × String) → String)
    (hp : env.parseArgs arguments = some d)
    (hg : env.getFunction name = some f) :
    (handleFunctionCall env messages name arguments).1 =
      ["\n", traceFragment name d] ++
        (if env.showFunctionsOutput then [resultFragment (f d)] else []) := by
  rw [handleFunctionCall_success env messages name arguments d f hp hg]

/-- Witness for the amended C4: with a user message as the predecessor the
fragments are the separator then the trace note. -/
theorem separator_always_emitted_before_trace_witness :
    (handleFunctionCall envA [userMsg] "get_time" "\x7b\x7d").1 =
      ["\n", "> @FunctionCall `get_time()` \n\n"] := by
  have h := separator_always_emitted_before_trace envA [userMsg] "get_time"
    "\x7b\x7d" [] (fun _ => "12:00") rfl rfl
  exact h.trans (by decide)

/-- C5: a request issued under one of the tool-forbidding role variants
(shell, code, describe-shell) carries functions = none regardless of the
caller-supplied value; under any other role the caller-supplied value is
passed through unchanged. -/
theorem forbidden_roles_force_functions_none (env : Env) (roleName : String)
    (fuel : Nat) (caching : Bool) (model : String) (temperature top_p : Rat)
    (messages : List Message) (functions : Option (List FuncSchema)) :
    ((roleName = shellRoleName ∨ roleName = codeRoleName ∨
        roleName = describeShellRoleName) →
      ((getCompletion env roleName fuel caching model temperature top_p
        messages functions).requests.head?.map Request.functions) =
        some none) ∧
    (¬ (roleName = shellRoleName ∨ roleName = codeRoleName ∨
        roleName = describeShellRoleName) →
      ((getCompletion env roleName fuel caching model temperature top_p
        messages functions).requests.head?.map Request.functions) =
        some functions) := by
  constructor
  · intro h
    rw [getCompletion_eq]
    dsimp only
    simp [buildRequest, forcedFunctions, if_pos h]
  · intro h
    rw [getCompletion_eq]
    dsimp only
    simp [buildRequest, forcedFunctions, if_neg h]

/-- Witness for C5: the shell role forces functions = none even though the
caller supplied a non-empty schema list. -/
theorem forbidden_roles_force_functions_none_witness :
    ((getCompletion envA shellRoleName 1 true "gpt-4" 1 1 []
      (some [[("n", "v")]])).requests.head?.map Request.functions) =
      some none := by
  exact (forbidden_roles_force_functions_none envA shellRoleName 1 true
    "gpt-4" 1 1 [] (some [[("n", "v")]])).1 (Or.inl rfl)

/-- C6: a chunk that does not signal function-call termination yields its
content immediately as exactly one text fragment and the loop continues
with the remaining chunks; a chunk with absent or empty content yields the
empty fragment, which is a fragment like any other and does not end the
stream. -/
theorem content_chunk_yields_fragment (env : Env)
    (recurse : Option (List Message → Outcome))
    (mkCont : List Message → ContCall) (messages : List Message)
    (name arguments : String) (chunk : Chunk) (rest : List Chunk)
    (hc : ¬ chunk.finish_reason = some "function_call") :
    (processChunksWith env recurse mkCont messages name arguments
      (chunk :: rest)).fragments =
      contentOrEmpty chunk.delta.content ::
        (processChunksWith env recurse mkCont messages
          (stepAcc (name, arguments) chunk).1
          (stepAcc (name, arguments) chunk).2 rest).fragments ∧
    contentOrEmpty none = "" ∧ contentOrEmpty (some "") = "" := by
  refine ⟨?_, rfl, rfl⟩
  rw [processChunksWith_cons_cont env recurse mkCont messages name arguments
    chunk rest hc]

/-- Witness for C6 on the concrete two-chunk content stream. -/
theorem content_chunk_yields_fragment_witness :
    (processChunksWith envS none (mkContCall "gpt-4" 1 1 none) [] "" ""
      [cChunk1, cChunk2]).fragments =
      "Hel" ::
        (processChunksWith envS none (mkContCall "gpt-4" 1 1 none) []
          (stepAcc ("", "") cChunk1).1 (stepAcc ("", "") cChunk1).2
          [cChunk2]).fragments ∧
    contentOrEmpty none = "" ∧ contentOrEmpty (some "") = "" := by
  exact content_chunk_yields_fragment envS none (mkContCall "gpt-4" 1 1 none)
    [] "" "" cChunk1 [cChunk2] (by decide)

/-- Modelled-from-spec cache property: a live stream that ended in an error
is never written to the store, whatever the caching flag, key or state. -/
theorem cacheRun_error_no_write (maxLength : Nat) (b : Bool) (key : Request)
    (frs : List String) (e : EngineError) (st : CacheState) :
    (cacheRun maxLength b key (frs, some e) st).2 = st := by
  unfold cacheRun
  by_cases hb : b = false
  · rw [if_pos hb]
  · rw [if_neg hb]
    cases h : cacheLookup key st.entries with
    | none => simp [h]
    | some frags => simp [h]

/-- C7: when the accumulated argument payload of a function-call turn fails
to parse, the failure propagates as a hard failure of the exchange — the
fragment sequence stops right after the separator (no trace note, no
continuation fragments), no continuation call is made — and the cache
wrapper writes no entry for the aborted stream. -/
theorem parse_failure_aborts_without_cache_write (env : Env)
    (roleName : String) (fuel : Nat) (caching : Bool) (model : String)
    (temperature top_p : Rat) (messages : List Message)
    (functions functions1 : Option (List FuncSchema))
    (pre post : List Chunk) (c : Chunk) (acc : String × String)
    (hfun : functions1 = forcedFunctions roleName functions)
    (hserv : env.service (buildRequest model temperature top_p messages
      functions1) = pre ++ c :: post)
    (hpre : ∀ x ∈ pre, ¬ x.finish_reason = some "function_call")
    (hc : c.finish_reason = some "function_call")
    (hacc : acc = (pre ++ [c]).foldl stepAcc ("", ""))
    (hparse : env.parseArgs acc.2 = none) :
    (getCompletion env roleName fuel caching model temperature top_p
      messages functions).error = some (EngineError.parseError acc.2) ∧
    (getCompletion env roleName fuel caching model temperature top_p
      messages functions).fragments =
      pre.map (fun x => contentOrEmpty x.delta.content) ++ ["\n"] ∧
    (getCompletion env roleName fuel caching model temperature top_p
      messages functions).contCalls = [] ∧
    ∀ (maxLength : Nat) (b : Bool) (key : Request) (st : CacheState),
      (cacheRun maxLength b key
        ((getCompletion env roleName fuel caching model temperature top_p
           messages functions).fragments,
         (getCompletion env roleName fuel caching model temperature top_p
           messages functions).error) st).2 = st := by
  subst hfun
  subst hacc
  have hsplit := processChunksWith_split env
    (recurseOf env roleName fuel model temperature top_p
      (forcedFunctions roleName functions))
    (mkContCall model temperature top_p (forcedFunctions roleName functions))
    messages pre c post "" "" hpre hc
  dsimp only at hsplit
  have hout : getCompletion env roleName fuel caching model temperature
      top_p messages functions =
      { fragments := pre.map (fun x => contentOrEmpty x.delta.content) ++
          ["\n"],
        requests := [buildRequest model temperature top_p messages
          (forcedFunctions roleName functions)],
        contCalls := [],
        messages := messages ++
          [assistantCallRecord ((pre ++ [c]).foldl stepAcc ("", "")).1
            ((pre ++ [c]).foldl stepAcc ("", "")).2],
        chunksRead := pre.length + 1,
        error := some (EngineError.parseError
          ((pre ++ [c]).foldl stepAcc ("", "")).2) } := by
    rw [getCompletion_eq]
    dsimp only
    rw [hserv, hsplit, onFunctionCallTermination_parse_fail env _ _ messages
      _ _ hparse]
  rw [hout]
  refine ⟨rfl, rfl, rfl, ?_⟩
  intro maxLength b key st
  exact cacheRun_error_no_write maxLength b key _ _ st

/-- Witness for C7 on the concrete malformed-payload stream. -/
theorem parse_failure_aborts_without_cache_write_witness :
    (getCompletion envP "default" 1 true "gpt-4" 1 1 [] none).error =
      some (EngineError.parseError "\x7b\x7d") ∧
    (getCompletion envP "default" 1 true "gpt-4" 1 1 [] none).fragments =
      ["", "\n"] ∧
    (getCompletion envP "default" 1 true "gpt-4" 1 1 [] none).contCalls =
      [] ∧
    (cacheRun 10 true (buildRequest "gpt-4" 1 1 [] none)
      ((getCompletion envP "default" 1 true "gpt-4" 1 1 [] none).fragments,
       (getCompletion envP "default" 1 true "gpt-4" 1 1 [] none).error)
      { entries := [] }).2 = { entries := [] } := by
  have h := parse_failure_aborts_without_cache_write envP "default" 1 true
    "gpt-4" 1 1 [] none none [fcChunk1] [] fcChunk2
    ("get_time", "\x7b\x7d") (by decide) (by decide) (by decide) rfl
    (by decide) rfl
  exact ⟨h.1, h.2.1.trans (by decide), h.2.2.1,
    h.2.2.2 10 true (buildRequest "gpt-4" 1 1 [] none) { entries := [] }⟩

/-- C8: the initial request carries exactly the invocation's model,
temperature, top_p and messages, the functions value after role forcing,
and stream = true; and every request of the whole invocation (continuations
included) keeps model, temperature and top_p, has stream = true, and
carries either the caller's functions value or none. -/
theorem request_shape_every_invocation (env : Env) (roleName : String)
    (fuel : Nat) (caching : Bool) (model : String) (temperature top_p : Rat)
    (messages : List Message) (functions : Option (List FuncSchema)) :
    (getCompletion env roleName fuel caching model temperature top_p
      messages functions).requests.head? =
      some { model := model, temperature := temperature, top_p := top_p,
             messages := messages,
             functions := forcedFunctions roleName functions,
             stream := true } ∧
    ∀ req ∈ (getCompletion env roleName fuel caching model temperature top_p
      messages functions).requests,
      req.model = model ∧ req.temperature = temperature ∧
        req.top_p = top_p ∧ req.stream = true ∧
        (req.functions = functions ∨ req.functions = none) := by
  constructor
  · rw [getCompletion_eq]
    rfl
  · intro req h
    exact getCompletion_requests env roleName model temperature top_p fuel
      caching messages functions req h

/-- Witness for C8 on the plain content stream: the sole request has all
the required fields and stream = true. -/
theorem request_shape_every_invocation_witness :
    ({ model := "gpt-4", temperature := 1, top_p := 1,
       messages := [userMsg], functions := none,
       stream := true } : Request) ∈
      (getCompletion envS "default" 1 true "gpt-4" 1 1 [userMsg]
        none).requests ∧
    (({ model := "gpt-4", temperature := 1, top_p := 1,
        messages := [userMsg], functions := none,
        stream := true } : Request).model = "gpt-4" ∧
      ({ model := "gpt-4", temperature := 1, top_p := 1,
         messages := [userMsg], functions := none,
         stream := true } : Request).temperature = 1 ∧
      ({ model := "gpt-4", temperature := 1, top_p := 1,
         messages := [userMsg], functions := none,
         stream := true } : Request).top_p = 1 ∧
      ({ model := "gpt-4", temperature := 1, top_p := 1,
         messages := [userMsg], functions := none,
         stream := true } : Request).stream = true ∧
      (({ model := "gpt-4", temperature := 1, top_p := 1,
          messages := [userMsg], functions := none,
          stream := true } : Request).functions = none ∨
        ({ model := "gpt-4", temperature := 1, top_p := 1,
           messages := [userMsg], functions := none,
           stream := true } : Request).functions = none)) := by
  refine ⟨by decide, ?_⟩
  exact (request_shape_every_invocation envS "default" 1 true "gpt-4" 1 1
    [userMsg] none).2 _ (by decide)

/-- C9: a parse failure happens only after the assistant function-call
record was appended: the conversation ends exactly one message longer than
before the turn, with that record appended and not rolled back. -/
theorem parse_failure_leaves_record_appended (env : Env)
    (roleName : String) (fuel : Nat) (caching : Bool) (model : String)
    (temperature top_p : Rat) (messages : List Message)
    (functions functions1 : Option (List FuncSchema))
    (pre post : List Chunk) (c : Chunk) (acc : String × String)
    (hfun : functions1 = forcedFunctions roleName functions)
    (hserv : env.service (buildRequest model temperature top_p messages
      functions1) = pre ++ c :: post)
    (hpre : ∀ x ∈ pre, ¬ x.finish_reason = some "function_call")
    (hc : c.finish_reason = some "function_call")
    (hacc : acc = (pre ++ [c]).foldl stepAcc ("", ""))
    (hparse : env.parseArgs acc.2 = none) :
    (getCompletion env roleName fuel caching model temperature top_p
      messages functions).messages =
      messages ++ [assistantCallRecord acc.1 acc.2] ∧
    (getCompletion env roleName fuel caching model temperature top_p
      messages functions).messages.length = messages.length + 1 := by
  subst hfun
  subst hacc
  have hsplit := processChunksWith_split env
    (recurseOf env roleName fuel model temperature top_p
      (forcedFunctions roleName functions))
    (mkContCall model temperature top_p (forcedFunctions roleName functions))
    messages pre c post "" "" hpre hc
  dsimp only at hsplit
  have hmsg : (getCompletion env roleName fuel caching model temperature
      top_p messages functions).messages =
      messages ++ [assistantCallRecord
        ((pre ++ [c]).foldl stepAcc ("", "")).1
        ((pre ++ [c]).foldl stepAcc ("", "")).2] := by
    rw [getCompletion_eq]
    dsimp only
    rw [hserv, hsplit, onFunctionCallTermination_parse_fail env _ _ messages
      _ _ hparse]
  refine ⟨hmsg, ?_⟩
  rw [hmsg]
  simp

/-- Witness for C9 on the concrete malformed-payload stream: the
conversation goes from empty to exactly the assistant record. -/
theorem parse_failure_leaves_record_appended_witness :
    (getCompletion envP "default" 1 true "gpt-4" 1 1 [] none).messages =
      [assistantCallRecord "get_time" "\x7b\x7d"] ∧
    (getCompletion envP "default" 1 true "gpt-4" 1 1 []
      none).messages.length = 1 := by
  have h := parse_failure_leaves_record_appended envP "default" 1 true
    "gpt-4" 1 1 [] none none [fcChunk1] [] fcChunk2
    ("get_time", "\x7b\x7d") (by decide) (by decide) (by decide) rfl
    (by decide) rfl
  exact ⟨h.1.trans (by decide), h.2⟩

/-- C10: in a stream with no function-call termination, every chunk
produces exactly one yielded fragment — its content, the empty fragment
when it carries none — so the number of fragments equals the number of
chunks received. -/
theorem clean_stream_one_fragment_per_chunk (env : Env) (roleName : String)
    (fuel : Nat) (caching : Bool) (model : String) (temperature top_p : Rat)
    (messages : List Message)
    (functions functions1 : Option (List FuncSchema))
    (hfun : functions1 = forcedFunctions roleName functions)
    (h : ∀ c ∈ env.service (buildRequest model temperature top_p messages
        functions1), ¬ c.finish_reason = some "function_call") :
    (getCompletion env roleName fuel caching model temperature top_p
      messages functions).fragments =
      (env.service (buildRequest model temperature top_p messages
        functions1)).map (fun c => contentOrEmpty c.delta.content) ∧
    (getCompletion env roleName fuel caching model temperature top_p
      messages functions).fragments.length =
      (env.service (buildRequest model temperature top_p messages
        functions1)).length ∧
    (getCompletion env roleName fuel caching model temperature top_p
      messages functions).chunksRead =
      (env.service (buildRequest model temperature top_p messages
        functions1)).length := by
  subst hfun
  have hclean := processChunksWith_clean env
    (recurseOf env roleName fuel model temperature top_p
      (forcedFunctions roleName functions))
    (mkContCall model temperature top_p (forcedFunctions roleName functions))
    messages
    (env.service (buildRequest model temperature top_p messages
      (forcedFunctions roleName functions))) "" "" h
  rw [getCompletion_eq]
  dsimp only
  rw [hclean]
  exact ⟨rfl, by simp, rfl⟩

/-- Witness for C10 on the plain two-chunk content stream. -/
theorem clean_stream_one_fragment_per_chunk_witness :
    (getCompletion envS "default" 1 true "gpt-4" 1 1 [userMsg]
      none).fragments = ["Hel", "lo"] ∧
    (getCompletion envS "default" 1 true "gpt-4" 1 1 [userMsg]
      none).fragments.length = 2 ∧
    (getCompletion envS "default" 1 true "gpt-4" 1 1 [userMsg]
      none).chunksRead = 2 := by
  have h := clean_stream_one_fragment_per_chunk envS "default" 1 true
    "gpt-4" 1 1 [userMsg] none none (by decide) (by decide)
  exact ⟨h.1.trans (by decide), h.2.1.trans (by decide),
    h.2.2.trans (by decide)⟩

end SGpt
